import Mathlib

/-!
Shallow embedding of the lowmemorykiller policy engine
(drivers/staging/android/lowmemorykiller.c) and proofs of its
specification properties.

The embedding covers:
* the threshold-tier scan of lowmem_shrink (lines 149-181),
* the ENHANCED_LMK_ROUTINE bounded top-3 victim selection (lines 183-271),
* the kill loop and reclaim-estimate bookkeeping (lines 272-298),
* the screen-state profile switch low_mem_early_suspend / low_mem_late_resume
  (lines 306-315),
* the legacy oom_adj autodetect rescale (lines 628-666).

Machine integers are modelled as Int; the only place where C truncation
matters (assignment of an int conversion result to a short) is modelled
explicitly via toShort.
-/

/-- Constant OOM_SCORE_ADJ_MAX from linux/oom.h. -/
def OOM_SCORE_ADJ_MAX : Int := 1000

/-- Constant OOM_ADJUST_MAX from linux/oom.h. -/
def OOM_ADJUST_MAX : Int := 15

/-- Constant OOM_DISABLE from linux/oom.h. -/
def OOM_DISABLE : Int := -17

/-- Constant LOWMEM_DEATHPENDING_DEPTH: the candidate-pool capacity K of the
enhanced routine (line 52). -/
def LOWMEM_DEATHPENDING_DEPTH : Nat := 3

/-- Conversion of an Int to C short semantics: wrap modulo 2^16 into
the interval [-32768, 32767].  Used where the source assigns an int
expression to a short variable. -/
def toShort (x : Int) : Int := Int.emod (x + 32768) 65536 - 32768

/-- Snapshot of one task as observed by the lowmem_shrink scan loop
(lines 191-221): the PF_KTHREAD flag, whether find_lock_task_mm succeeds,
whether the TIF_MEMDIE flag is set, the oom_score_adj value and the
resident-set size returned by get_mm_rss. -/
structure TaskStruct where
  kthread : Bool
  hasMm : Bool
  memdie : Bool
  oom_score_adj : Int
  rss : Int
deriving DecidableEq

/-- Selection state of the ENHANCED_LMK_ROUTINE: the three candidate slots
(selected[i] modelled as a presence flag), the parallel selected_tasksize and
selected_oom_score_adj arrays, the all_selected_oom counter and the
max_selected_oom_idx register (lines 131-144). -/
structure LmkSel where
  selected : Fin 3 → Bool
  selected_tasksize : Fin 3 → Int
  selected_oom_score_adj : Fin 3 → Int
  all_selected_oom : Nat
  max_selected_oom_idx : Fin 3

/-- Initial selection state: no slot filled, sizes zero, every
selected_oom_score_adj entry preset to min_score_adj (lines 131, 141-144 and
the preset loop at lines 184-185). -/
def initSel (min_score_adj : Int) : LmkSel :=
  { selected := fun _ => false
    selected_tasksize := fun _ => 0
    selected_oom_score_adj := fun _ => min_score_adj
    all_selected_oom := 0
    max_selected_oom_idx := 0 }

/-- Search for the first empty candidate slot, mirroring the loop at lines
225-231 (for i = 0..2: if !selected[i] break). -/
def firstEmptyIdx (sel : Fin 3 → Bool) : Option (Fin 3) :=
  if sel 0 = false then some 0
  else if sel 1 = false then some 1
  else if sel 2 = false then some 2
  else none

/-- Recomputation of max_selected_oom_idx after an insertion into a full
pool: the sequential scan at lines 247-253, which moves the register to any
slot with a strictly smaller score, or an equal score and strictly smaller
size.  The scan starts from the register value m0 current at that point. -/
def rescanWeakest (adjA szA : Fin 3 → Int) (m0 : Fin 3) : Fin 3 :=
  let m1 := if adjA 0 < adjA m0 then (0 : Fin 3)
    else if adjA 0 = adjA m0 ∧ szA 0 < szA m0 then (0 : Fin 3) else m0
  let m2 := if adjA 1 < adjA m1 then (1 : Fin 3)
    else if adjA 1 = adjA m1 ∧ szA 1 < szA m1 then (1 : Fin 3) else m1
  if adjA 2 < adjA m2 then (2 : Fin 3)
  else if adjA 2 = adjA m2 ∧ szA 2 < szA m2 then (2 : Fin 3) else m2

/-- Insertion of a candidate with the given score and size into slot j,
including the all_selected_oom increment and, when the pool is full after the
insertion, the max_selected_oom_idx rescan (lines 238-254). -/
def insertAt (st : LmkSel) (j : Fin 3) (oom_score_adj tasksize : Int) : LmkSel :=
  let sel := Function.update st.selected j true
  let szA := Function.update st.selected_tasksize j tasksize
  let adjA := Function.update st.selected_oom_score_adj j oom_score_adj
  let allSel := if st.all_selected_oom < LOWMEM_DEATHPENDING_DEPTH then
    st.all_selected_oom + 1 else st.all_selected_oom
  let m := if allSel = LOWMEM_DEATHPENDING_DEPTH then rescanWeakest adjA szA j else j
  { selected := sel
    selected_tasksize := szA
    selected_oom_score_adj := adjA
    all_selected_oom := allSel
    max_selected_oom_idx := m }

/-- Replacement test of the full-pool branch (lines 232-234): the new
candidate beats the slot at max_selected_oom_idx when it has a strictly
higher score, or an equal score and a strictly larger size. -/
def domCond (st : LmkSel) (oom_score_adj tasksize : Int) : Prop :=
  st.selected_oom_score_adj st.max_selected_oom_idx < oom_score_adj ∨
  (st.selected_oom_score_adj st.max_selected_oom_idx = oom_score_adj ∧
   st.selected_tasksize st.max_selected_oom_idx < tasksize)

instance domCondDecidable (st : LmkSel) (oom_score_adj tasksize : Int) :
    Decidable (domCond st oom_score_adj tasksize) :=
  inferInstanceAs (Decidable (_ ∨ _))

/-- One iteration of the candidate bookkeeping for an eligible task
(lines 223-257): while the pool is not full, insert at the first empty slot;
once full, replace the slot at max_selected_oom_idx iff the new candidate has
a strictly higher score, or an equal score and strictly larger size. -/
def selStep (st : LmkSel) (oom_score_adj tasksize : Int) : LmkSel :=
  if st.all_selected_oom < LOWMEM_DEATHPENDING_DEPTH then
    match firstEmptyIdx st.selected with
    | some j => insertAt st j oom_score_adj tasksize
    | none => st
  else if domCond st oom_score_adj tasksize then
    insertAt st st.max_selected_oom_idx oom_score_adj tasksize
  else st

/-- The task scan of lowmem_shrink (lines 191-271): kernel threads and tasks
without an mm are skipped; a task with TIF_MEMDIE set while the deathpending
timeout has not elapsed aborts the whole pass (modelled as none, the early
return 0 at lines 205-210); tasks below min_score_adj or with a non-positive
rss are skipped; every remaining task goes through the selection step. -/
def scanTasks (min_score_adj : Int) (notElapsed : Bool) :
    LmkSel → List TaskStruct → Option LmkSel
  | st, [] => some st
  | st, t :: ts =>
    if t.kthread = true then scanTasks min_score_adj notElapsed st ts
    else if t.hasMm = false then scanTasks min_score_adj notElapsed st ts
    else if t.memdie = true ∧ notElapsed = true then none
    else if t.oom_score_adj < min_score_adj then scanTasks min_score_adj notElapsed st ts
    else if t.rss ≤ 0 then scanTasks min_score_adj notElapsed st ts
    else scanTasks min_score_adj notElapsed (selStep st t.oom_score_adj t.rss) ts

/-- The (score, size) pairs held in the filled candidate slots, in slot
order — exactly the victims visited by the kill loop at lines 273-283. -/
def poolList (st : LmkSel) : List (Int × Int) :=
  (if st.selected 0 = true then
    [(st.selected_oom_score_adj 0, st.selected_tasksize 0)] else []) ++
  (if st.selected 1 = true then
    [(st.selected_oom_score_adj 1, st.selected_tasksize 1)] else []) ++
  (if st.selected 2 = true then
    [(st.selected_oom_score_adj 2, st.selected_tasksize 2)] else [])

/-- Tier-breach predicate of the threshold loop (lines 158-163): in the
default build both other_free and other_file must be below the minfree entry;
in the CONFIG_VMWARE_MVP build only other_file is tested. -/
def tierPred (mvp : Bool) (lowmem_minfree : Nat → Int)
    (other_free other_file : Int) (i : Nat) : Bool :=
  if mvp then decide (other_file < lowmem_minfree i)
  else decide (other_free < lowmem_minfree i) && decide (other_file < lowmem_minfree i)

/-- The smallest index i < n satisfying p, as found by a loop that breaks at
the first hit (lines 158-168). -/
def firstBreach (p : Nat → Bool) : Nat → Option Nat
  | 0 => none
  | n + 1 =>
    match firstBreach p n with
    | some i => some i
    | none => if p n then some n else none

/-- Index of the active tier selected by the threshold loop, if any. -/
def tierIndex (mvp : Bool) (lowmem_minfree : Nat → Int) (n : Nat)
    (other_free other_file : Int) : Option Nat :=
  firstBreach (tierPred mvp lowmem_minfree other_free other_file) n

/-- The min_score_adj value after the threshold loop: the breached tier's
adj entry, or the sentinel OOM_SCORE_ADJ_MAX + 1 when no tier is breached
(lines 138, 158-168). -/
def minScoreAdj (mvp : Bool) (lowmem_adj lowmem_minfree : Nat → Int) (n : Nat)
    (other_free other_file : Int) : Int :=
  match tierIndex mvp lowmem_minfree n other_free other_file with
  | some i => lowmem_adj i
  | none => OOM_SCORE_ADJ_MAX + 1

/-- Effective array length: ARRAY_SIZE(lowmem_adj) = 6 clamped by
lowmem_adj_size and lowmem_minfree_size, computed sequentially as at lines
149-156. -/
def effArraySize (lowmem_adj_size lowmem_minfree_size : Nat) : Nat :=
  let a1 := if lowmem_adj_size < 6 then lowmem_adj_size else 6
  if lowmem_minfree_size < a1 then lowmem_minfree_size else a1

/-- Inputs of one lowmem_shrink invocation: the scan budget sc->nr_to_scan
(an unsigned long, so nonnegative), the free-page and file-page samples, the
four page-state counters summed into the informational estimate rem
(lines 173-176), whether jiffies is still before the deathpending timeout,
and the process-catalog snapshot. -/
structure ShrinkInput where
  nr_to_scan : Nat
  other_free : Int
  other_file : Int
  active_anon : Int
  active_file : Int
  inactive_anon : Int
  inactive_file : Int
  deathpending_not_elapsed : Bool
  tasks : List TaskStruct

/-- Observable result of one lowmem_shrink invocation: the returned value and
the (score, size) pairs of the processes that received SIGKILL. -/
structure ShrinkResult where
  ret : Int
  killed : List (Int × Int)
deriving DecidableEq

/-- The lowmem_shrink function (lines 127-299): threshold evaluation, the
count-only / no-breach early return of rem, the task scan with its
deathpending abort, and the kill loop subtracting each victim's size from
rem. -/
def lowmem_shrink (mvp : Bool) (lowmem_adj lowmem_minfree : Nat → Int)
    (lowmem_adj_size lowmem_minfree_size : Nat) (sc : ShrinkInput) : ShrinkResult :=
  let array_size := effArraySize lowmem_adj_size lowmem_minfree_size
  let min_score_adj :=
    minScoreAdj mvp lowmem_adj lowmem_minfree array_size sc.other_free sc.other_file
  let rem := sc.active_anon + sc.active_file + sc.inactive_anon + sc.inactive_file
  if sc.nr_to_scan = 0 ∨ min_score_adj = OOM_SCORE_ADJ_MAX + 1 then
    { ret := rem, killed := [] }
  else
    match scanTasks min_score_adj sc.deathpending_not_elapsed
        (initSel min_score_adj) sc.tasks with
    | none => { ret := 0, killed := [] }
    | some st =>
      { ret := rem - (List.map Prod.snd (poolList st)).sum, killed := poolList st }

/-- The module-level threshold arrays touched by the screen-state switch:
lowmem_adj, the active lowmem_minfree, and the screen_off / screen_on
variants (lines 56-88). -/
structure ProfileState where
  lowmem_adj : Fin 6 → Int
  lowmem_minfree : Fin 6 → Int
  lowmem_minfree_screen_off : Fin 6 → Int
  lowmem_minfree_screen_on : Fin 6 → Int

/-- Transition to the non-interactive profile (lines 306-310): back up the
active minfree array into lowmem_minfree_screen_on, then load the screen_off
array as active. -/
def low_mem_early_suspend (s : ProfileState) : ProfileState :=
  { s with
    lowmem_minfree_screen_on := s.lowmem_minfree
    lowmem_minfree := s.lowmem_minfree_screen_off }

/-- Transition back to the interactive profile (lines 312-315): restore the
active minfree array from the lowmem_minfree_screen_on backup. -/
def low_mem_late_resume (s : ProfileState) : ProfileState :=
  { s with lowmem_minfree := s.lowmem_minfree_screen_on }

/-- Conversion of a legacy oom_adj value to an oom_score_adj value
(lines 629-635): the legacy maximum maps exactly to OOM_SCORE_ADJ_MAX, every
other value is scaled by OOM_SCORE_ADJ_MAX / -OOM_DISABLE with C integer
division (truncation toward zero). -/
def lowmem_oom_adj_to_oom_score_adj (oom_adj : Int) : Int :=
  if oom_adj = OOM_ADJUST_MAX then OOM_SCORE_ADJ_MAX
  else Int.tdiv (oom_adj * OOM_SCORE_ADJ_MAX) (-OOM_DISABLE)

/-- The one-time legacy rescale (lines 637-666): with array_size the adj
length clamped to 6, the table is left unchanged when it is empty, when its
last entry exceeds OOM_ADJUST_MAX, or when the converted last entry (stored
into a short) is still at most OOM_ADJUST_MAX; otherwise every entry below
array_size is replaced by its converted value. -/
def lowmem_autodetect_oom_adj_values (lowmem_adj : Nat → Int)
    (lowmem_adj_size : Nat) : Nat → Int :=
  let array_size := if lowmem_adj_size < 6 then lowmem_adj_size else 6
  if array_size = 0 then lowmem_adj
  else
    let oom_adj := lowmem_adj (array_size - 1)
    if OOM_ADJUST_MAX < oom_adj then lowmem_adj
    else if toShort (lowmem_oom_adj_to_oom_score_adj oom_adj) ≤ OOM_ADJUST_MAX then
      lowmem_adj
    else fun i =>
      if i < array_size then toShort (lowmem_oom_adj_to_oom_score_adj (lowmem_adj i))
      else lowmem_adj i

/-- Lexicographic order on (score, size) pairs: p is at most q when p has a
smaller score, or an equal score and a size at most that of q. -/
def lexLe (p q : Int × Int) : Prop := p.1 < q.1 ∨ (p.1 = q.1 ∧ p.2 ≤ q.2)

/-- Strict domination of q by p under the selection tie-break order: p has a
strictly higher score, or an equal score and a strictly larger size. -/
def strictDom (p q : Int × Int) : Prop := q.1 < p.1 ∨ (q.1 = p.1 ∧ q.2 < p.2)

/-- Eligibility of a task under the active cutoff: not a kernel thread, an
accessible mm, score at least min_score_adj, and a positive resident size
(the skip chain at lines 198-221). -/
def eligible (min_score_adj : Int) (t : TaskStruct) : Prop :=
  t.kthread = false ∧ t.hasMm = true ∧ min_score_adj ≤ t.oom_score_adj ∧ 0 < t.rss

instance eligibleDecidable (min_score_adj : Int) (t : TaskStruct) :
    Decidable (eligible min_score_adj t) :=
  inferInstanceAs (Decidable (_ ∧ _))

/-- Condition under which a task aborts the scan: it reaches the TIF_MEMDIE
check (not a kernel thread, has an mm) with the flag set while the
deathpending timeout has not elapsed. -/
def abortsScan (notElapsed : Bool) (t : TaskStruct) : Prop :=
  t.kthread = false ∧ t.hasMm = true ∧ t.memdie = true ∧ notElapsed = true

/-- Structural invariant of the selection state: the filled slots are exactly
the indices below all_selected_oom, which never exceeds the pool depth. -/
def SelInv (st : LmkSel) : Prop :=
  (∀ i : Fin 3, st.selected i = true ↔ (i : Nat) < st.all_selected_oom) ∧
  st.all_selected_oom ≤ 3

/-- A value is witnessed in a selection state when some filled slot holds a
pair at least as large in the (score, size) order. -/
def Witnessed (st : LmkSel) (v : Int × Int) : Prop :=
  ∃ i : Fin 3, st.selected i = true ∧
    lexLe v (st.selected_oom_score_adj i, st.selected_tasksize i)

/-- Tier-selection predicate transcribed from the words of claim C1: the
smallest index with other_free below the minfree entry, with the other_file
condition added only in the alternate mode. -/
def tierIndexClaimC1 (mvp : Bool) (lowmem_minfree : Nat → Int) (n : Nat)
    (other_free other_file : Int) : Option Nat :=
  firstBreach (fun i =>
    if mvp then
      decide (other_free < lowmem_minfree i) && decide (other_file < lowmem_minfree i)
    else decide (other_free < lowmem_minfree i)) n

/-- Coercion value of the Fin 3 literal 0. -/
theorem fin3_val_zero : ((0 : Fin 3) : Nat) = 0 := rfl

/-- Coercion value of the Fin 3 literal 1. -/
theorem fin3_val_one : ((1 : Fin 3) : Nat) = 1 := rfl

/-- Coercion value of the Fin 3 literal 2. -/
theorem fin3_val_two : ((2 : Fin 3) : Nat) = 2 := rfl

/-- Characterization of a failed first-breach search: no index below n
satisfies the predicate. -/
theorem firstBreach_none_iff (p : Nat → Bool) (n : Nat) :
    firstBreach p n = none ↔ ∀ i, i < n → p i = false := by
  induction n with
  | zero =>
    constructor
    · intro _ i hi; exact absurd hi (Nat.not_lt_zero i)
    · intro _; rfl
  | succ n ih =>
    constructor
    · intro h
      have h1 : firstBreach p n = none := by
        cases hfb : firstBreach p n with
        | some j => rw [firstBreach, hfb] at h; exact absurd h (by simp)
        | none => rfl
      have h2 : p n = false := by
        rw [firstBreach, h1] at h
        by_cases hp : p n = true
        · rw [if_pos hp] at h; exact absurd h (by simp)
        · simpa using hp
      intro i hi
      rcases Nat.lt_succ_iff_lt_or_eq.mp hi with h3 | h3
      · exact (ih.mp h1) i h3
      · rw [h3]; exact h2
    · intro hall
      have h1 : firstBreach p n = none :=
        ih.mpr (fun i hi => hall i (Nat.lt_succ_of_lt hi))
      rw [firstBreach, h1, hall n (Nat.lt_succ_self n)]
      simp

/-- Characterization of a successful first-breach search: the returned index
is the smallest one below n satisfying the predicate. -/
theorem firstBreach_some_iff (p : Nat → Bool) (n i : Nat) :
    firstBreach p n = some i ↔
      i < n ∧ p i = true ∧ ∀ j, j < i → p j = false := by
  induction n generalizing i with
  | zero =>
    constructor
    · intro h; exact absurd h (by simp [firstBreach])
    · rintro ⟨hi, -, -⟩; exact absurd hi (Nat.not_lt_zero i)
  | succ n ih =>
    rw [firstBreach]
    cases hfb : firstBreach p n with
    | some j =>
      have hj := (ih j).mp hfb
      constructor
      · intro h
        have hji : j = i := by injection h
        rw [hji] at hj
        exact ⟨Nat.lt_succ_of_lt hj.1, hj.2.1, hj.2.2⟩
      · rintro ⟨hi, hpi, hmin⟩
        have hij : i = j := by
          rcases Nat.lt_trichotomy i j with h | h | h
          · exact absurd hpi (by rw [hj.2.2 i h]; simp)
          · exact h
          · exact absurd hj.2.1 (by rw [hmin j h]; simp)
        rw [hij]
    | none =>
      have hnone := (firstBreach_none_iff p n).mp hfb
      by_cases hp : p n = true
      · rw [if_pos hp]
        constructor
        · intro h
          have hni : n = i := by injection h
          rw [← hni]
          exact ⟨Nat.lt_succ_self n, hp, hnone⟩
        · rintro ⟨hi, hpi, hmin⟩
          have hin : i = n := by
            rcases Nat.lt_trichotomy i n with h | h | h
            · exact absurd hpi (by rw [hnone i h]; simp)
            · exact h
            · omega
          rw [hin]
      · rw [if_neg hp]
        constructor
        · intro h; exact absurd h (by simp)
        · rintro ⟨hi, hpi, hmin⟩
          rcases Nat.lt_succ_iff_lt_or_eq.mp hi with h | h
          · exact absurd hpi (by rw [hnone i h]; simp)
          · rw [h] at hpi; exact absurd hpi hp

/-- Two predicates agreeing below n produce the same first-breach result. -/
theorem firstBreach_congr (p q : Nat → Bool) (n : Nat)
    (h : ∀ i, i < n → p i = q i) : firstBreach p n = firstBreach q n := by
  induction n with
  | zero => rfl
  | succ n ih =>
    rw [firstBreach, firstBreach,
      ih (fun i hi => h i (Nat.lt_succ_of_lt hi)), h n (Nat.lt_succ_self n)]

/-- Reflexivity of the (score, size) order. -/
theorem lexLe_refl (p : Int × Int) : lexLe p p := Or.inr ⟨rfl, le_refl _⟩

/-- The selection order is total: a pair that does not strictly dominate
another is at most it. -/
theorem lexLe_of_not_strictDom {p q : Int × Int} (h : ¬ strictDom p q) :
    lexLe p q := by
  unfold strictDom at h
  unfold lexLe
  omega

/-- A pair below another in the (score, size) order does not strictly
dominate it. -/
theorem not_strictDom_of_lexLe {p q : Int × Int} (h : lexLe p q) :
    ¬ strictDom p q := by
  unfold lexLe at h
  unfold strictDom
  omega

/-- Value of candidate slot presence after an insertion. -/
theorem insertAt_selected (st : LmkSel) (j : Fin 3) (a z : Int) (i : Fin 3) :
    (insertAt st j a z).selected i = if i = j then true else st.selected i := by
  simp [insertAt, Function.update_apply]

/-- Value of the score slot after an insertion. -/
theorem insertAt_adj (st : LmkSel) (j : Fin 3) (a z : Int) (i : Fin 3) :
    (insertAt st j a z).selected_oom_score_adj i =
      if i = j then a else st.selected_oom_score_adj i := by
  simp [insertAt, Function.update_apply]

/-- Value of the size slot after an insertion. -/
theorem insertAt_size (st : LmkSel) (j : Fin 3) (a z : Int) (i : Fin 3) :
    (insertAt st j a z).selected_tasksize i =
      if i = j then z else st.selected_tasksize i := by
  simp [insertAt, Function.update_apply]

/-- Value of the candidate counter after an insertion. -/
theorem insertAt_all (st : LmkSel) (j : Fin 3) (a z : Int) :
    (insertAt st j a z).all_selected_oom =
      if st.all_selected_oom < 3 then st.all_selected_oom + 1
      else st.all_selected_oom := by
  simp [insertAt, LOWMEM_DEATHPENDING_DEPTH]

/-- Under the structural invariant, a non-full pool's first empty slot is the
slot at index all_selected_oom. -/
theorem firstEmptyIdx_eq (st : LmkSel) (hinv : SelInv st)
    (h : st.all_selected_oom < 3) :
    firstEmptyIdx st.selected = some ⟨st.all_selected_oom, h⟩ := by
  obtain ⟨h1, -⟩ := hinv
  have e0 := h1 0
  have e1 := h1 1
  have e2 := h1 2
  clear h1
  rw [fin3_val_zero] at e0
  rw [fin3_val_one] at e1
  rw [fin3_val_two] at e2
  unfold firstEmptyIdx
  interval_cases hv : st.all_selected_oom
  all_goals simp_all

/-- Unfolding of lexLe against an explicit pair on the right. -/
theorem lexLe_pair (v : Int × Int) (x y : Int) :
    lexLe v (x, y) ↔ (v.1 < x ∨ (v.1 = x ∧ v.2 ≤ y)) := Iff.rfl

/-- Unfolding of lexLe between explicit pairs. -/
theorem lexLe_mk (a z x y : Int) :
    lexLe (a, z) (x, y) ↔ (a < x ∨ (a = x ∧ z ≤ y)) := Iff.rfl

/-- Shape of selStep on a non-full pool under the structural invariant:
insertion into the slot at index all_selected_oom. -/
theorem selStep_eq_insert_notfull (st : LmkSel) (a z : Int) (hinv : SelInv st)
    (hlt : st.all_selected_oom < 3) :
    selStep st a z = insertAt st ⟨st.all_selected_oom, hlt⟩ a z := by
  unfold selStep
  rw [firstEmptyIdx_eq st hinv hlt]
  simp [LOWMEM_DEATHPENDING_DEPTH, hlt]

/-- Shape of selStep on a full pool when the candidate beats the slot at
max_selected_oom_idx: replacement of that slot. -/
theorem selStep_eq_full_pos (st : LmkSel) (a z : Int)
    (hfull : ¬ st.all_selected_oom < 3) (hdom : domCond st a z) :
    selStep st a z = insertAt st st.max_selected_oom_idx a z := by
  unfold selStep
  simp [LOWMEM_DEATHPENDING_DEPTH, hfull, hdom]

/-- Shape of selStep on a full pool when the candidate does not beat the slot
at max_selected_oom_idx: no change. -/
theorem selStep_eq_full_neg (st : LmkSel) (a z : Int)
    (hfull : ¬ st.all_selected_oom < 3) (hdom : ¬ domCond st a z) :
    selStep st a z = st := by
  unfold selStep
  simp [LOWMEM_DEATHPENDING_DEPTH, hfull, hdom]

/-- Preservation of the structural invariant by one selection step. -/
theorem selStep_inv (st : LmkSel) (a z : Int) (hinv : SelInv st) :
    SelInv (selStep st a z) := by
  by_cases hlt : st.all_selected_oom < 3
  · rw [selStep_eq_insert_notfull st a z hinv hlt]
    constructor
    · intro i
      rw [insertAt_selected, insertAt_all, if_pos hlt]
      by_cases hij : i = (⟨st.all_selected_oom, hlt⟩ : Fin 3)
      · rw [if_pos hij]
        have hv : (i : Nat) = st.all_selected_oom := by rw [hij]
        rw [hv]
        exact ⟨fun _ => Nat.lt_succ_self _, fun _ => rfl⟩
      · rw [if_neg hij]
        have hne : (i : Nat) ≠ st.all_selected_oom := fun hc => hij (Fin.ext hc)
        rw [hinv.1 i]
        omega
    · rw [insertAt_all, if_pos hlt]
      omega
  · have h3 : st.all_selected_oom = 3 := by have := hinv.2; omega
    by_cases hdom : domCond st a z
    · rw [selStep_eq_full_pos st a z hlt hdom]
      constructor
      · intro i
        rw [insertAt_selected, insertAt_all, if_neg hlt, h3]
        by_cases hij : i = st.max_selected_oom_idx
        · rw [if_pos hij]
          exact ⟨fun _ => i.isLt, fun _ => rfl⟩
        · rw [if_neg hij, hinv.1 i, h3]
      · rw [insertAt_all, if_neg hlt, h3]
    · rw [selStep_eq_full_neg st a z hlt hdom]
      exact hinv

/-- Evolution of all_selected_oom in one selection step: it increments,
saturating at the pool depth. -/
theorem selStep_all (st : LmkSel) (a z : Int) (hinv : SelInv st) :
    (selStep st a z).all_selected_oom = min 3 (st.all_selected_oom + 1) := by
  by_cases hlt : st.all_selected_oom < 3
  · rw [selStep_eq_insert_notfull st a z hinv hlt, insertAt_all, if_pos hlt]
    omega
  · have h3 : st.all_selected_oom = 3 := by have := hinv.2; omega
    by_cases hdom : domCond st a z
    · rw [selStep_eq_full_pos st a z hlt hdom, insertAt_all, if_neg hlt]
      omega
    · rw [selStep_eq_full_neg st a z hlt hdom]
      omega

/-- A witnessed value stays witnessed across one selection step. -/
theorem selStep_w_mono (st : LmkSel) (a z : Int) (hinv : SelInv st)
    (v : Int × Int) (hw : Witnessed st v) : Witnessed (selStep st a z) v := by
  obtain ⟨i, hi, hle⟩ := hw
  by_cases hlt : st.all_selected_oom < 3
  · rw [selStep_eq_insert_notfull st a z hinv hlt]
    have hij : i ≠ (⟨st.all_selected_oom, hlt⟩ : Fin 3) := by
      intro hc
      have hv := (hinv.1 i).mp hi
      rw [hc, show ((⟨st.all_selected_oom, hlt⟩ : Fin 3) : Nat) =
        st.all_selected_oom from rfl] at hv
      omega
    refine ⟨i, ?_, ?_⟩
    · rw [insertAt_selected, if_neg hij]
      exact hi
    · rw [insertAt_adj, insertAt_size, if_neg hij, if_neg hij]
      exact hle
  · by_cases hdom : domCond st a z
    · rw [selStep_eq_full_pos st a z hlt hdom]
      by_cases hij : i = st.max_selected_oom_idx
      · refine ⟨st.max_selected_oom_idx, ?_, ?_⟩
        · rw [insertAt_selected, if_pos rfl]
        · rw [insertAt_adj, insertAt_size, if_pos rfl, if_pos rfl]
          rw [hij] at hle
          rw [lexLe_pair] at hle ⊢
          unfold domCond at hdom
          omega
      · refine ⟨i, ?_, ?_⟩
        · rw [insertAt_selected, if_neg hij]
          exact hi
        · rw [insertAt_adj, insertAt_size, if_neg hij, if_neg hij]
          exact hle
    · rw [selStep_eq_full_neg st a z hlt hdom]
      exact ⟨i, hi, hle⟩

/-- After a selection step, the candidate just offered is witnessed: it is in
the pool, or some slot is at least as large in the (score, size) order. -/
theorem selStep_w_self (st : LmkSel) (a z : Int) (hinv : SelInv st) :
    Witnessed (selStep st a z) (a, z) := by
  by_cases hlt : st.all_selected_oom < 3
  · rw [selStep_eq_insert_notfull st a z hinv hlt]
    refine ⟨⟨st.all_selected_oom, hlt⟩, ?_, ?_⟩
    · rw [insertAt_selected, if_pos rfl]
    · rw [insertAt_adj, insertAt_size, if_pos rfl, if_pos rfl]
      exact lexLe_refl _
  · by_cases hdom : domCond st a z
    · rw [selStep_eq_full_pos st a z hlt hdom]
      refine ⟨st.max_selected_oom_idx, ?_, ?_⟩
      · rw [insertAt_selected, if_pos rfl]
      · rw [insertAt_adj, insertAt_size, if_pos rfl, if_pos rfl]
        exact lexLe_refl _
    · rw [selStep_eq_full_neg st a z hlt hdom]
      have h3 : st.all_selected_oom = 3 := by have := hinv.2; omega
      refine ⟨st.max_selected_oom_idx, ?_, ?_⟩
      · rw [hinv.1, h3]
        exact (st.max_selected_oom_idx).isLt
      · unfold domCond at hdom
        rw [lexLe_mk]
        omega

/-- Provenance of a filled slot after an insertion: it is an untouched filled
slot, or it holds the inserted pair. -/
theorem insertAt_slot_cases (st : LmkSel) (j : Fin 3) (a z : Int) (i : Fin 3)
    (h : (insertAt st j a z).selected i = true) :
    (st.selected i = true ∧
     (insertAt st j a z).selected_oom_score_adj i = st.selected_oom_score_adj i ∧
     (insertAt st j a z).selected_tasksize i = st.selected_tasksize i) ∨
    ((insertAt st j a z).selected_oom_score_adj i = a ∧
     (insertAt st j a z).selected_tasksize i = z) := by
  by_cases hij : i = j
  · right
    rw [insertAt_adj, insertAt_size, if_pos hij, if_pos hij]
    exact ⟨rfl, rfl⟩
  · left
    rw [insertAt_selected, if_neg hij] at h
    rw [insertAt_adj, insertAt_size, if_neg hij, if_neg hij]
    exact ⟨h, rfl, rfl⟩

/-- Provenance of a filled slot after one selection step: it is an untouched
filled slot, or it holds the offered candidate. -/
theorem selStep_slots (st : LmkSel) (a z : Int) (i : Fin 3)
    (h : (selStep st a z).selected i = true) :
    (st.selected i = true ∧
     (selStep st a z).selected_oom_score_adj i = st.selected_oom_score_adj i ∧
     (selStep st a z).selected_tasksize i = st.selected_tasksize i) ∨
    ((selStep st a z).selected_oom_score_adj i = a ∧
     (selStep st a z).selected_tasksize i = z) := by
  by_cases hlt : st.all_selected_oom < 3
  · cases hfe : firstEmptyIdx st.selected with
    | some j =>
      have heq : selStep st a z = insertAt st j a z := by
        unfold selStep
        simp [LOWMEM_DEATHPENDING_DEPTH, hlt, hfe]
      rw [heq] at h ⊢
      exact insertAt_slot_cases st j a z i h
    | none =>
      have heq : selStep st a z = st := by
        unfold selStep
        simp [LOWMEM_DEATHPENDING_DEPTH, hlt, hfe]
      rw [heq] at h ⊢
      exact Or.inl ⟨h, rfl, rfl⟩
  · by_cases hdom : domCond st a z
    · rw [selStep_eq_full_pos st a z hlt hdom] at h ⊢
      exact insertAt_slot_cases st st.max_selected_oom_idx a z i h
    · rw [selStep_eq_full_neg st a z hlt hdom] at h ⊢
      exact Or.inl ⟨h, rfl, rfl⟩

/-- Aggregate facts carried through the scan from state st to final state
st' over a task suffix ts: the structural invariant, the saturating candidate
count, witness monotonicity, witnessing of every eligible task, and slot
provenance. -/
def ScanOut (msa : Int) (st st' : LmkSel) (ts : List TaskStruct) : Prop :=
  SelInv st' ∧
  st'.all_selected_oom =
    min 3 (st.all_selected_oom + ts.countP (fun x => decide (eligible msa x))) ∧
  (∀ v, Witnessed st v → Witnessed st' v) ∧
  (∀ t ∈ ts, eligible msa t → Witnessed st' (t.oom_score_adj, t.rss)) ∧
  (∀ i : Fin 3, st'.selected i = true →
    (st.selected i = true ∧
     st'.selected_oom_score_adj i = st.selected_oom_score_adj i ∧
     st'.selected_tasksize i = st.selected_tasksize i) ∨
    (∃ t ∈ ts, eligible msa t ∧
     st'.selected_oom_score_adj i = t.oom_score_adj ∧
     st'.selected_tasksize i = t.rss))

/-- Lifting of the scan facts across a skipped (ineligible) task. -/
theorem scanout_skip (msa : Int) (t : TaskStruct) (ts : List TaskStruct)
    (st st' : LmkSel) (hel : ¬ eligible msa t)
    (hc : ScanOut msa st st' ts) : ScanOut msa st st' (t :: ts) := by
  obtain ⟨i1, i2, i3, i4, i5⟩ := hc
  refine ⟨i1, ?_, i3, ?_, ?_⟩
  · simpa [List.countP_cons, hel] using i2
  · intro t2 ht2 he2
    rcases List.mem_cons.mp ht2 with h | h
    · rw [h] at he2
      exact absurd he2 hel
    · exact i4 t2 h he2
  · intro i hi
    rcases i5 i hi with h | ⟨t2, ht2, he2, hv1, hv2⟩
    · exact Or.inl h
    · exact Or.inr ⟨t2, List.mem_cons_of_mem t ht2, he2, hv1, hv2⟩

/-- Lifting of the scan facts across an eligible task that went through the
selection step. -/
theorem scanout_step (msa : Int) (t : TaskStruct) (ts : List TaskStruct)
    (st st' : LmkSel) (he : eligible msa t) (hinv : SelInv st)
    (hc : ScanOut msa (selStep st t.oom_score_adj t.rss) st' ts) :
    ScanOut msa st st' (t :: ts) := by
  obtain ⟨i1, i2, i3, i4, i5⟩ := hc
  refine ⟨i1, ?_, ?_, ?_, ?_⟩
  · rw [selStep_all st t.oom_score_adj t.rss hinv] at i2
    have hd : decide (eligible msa t) = true := by simp [he]
    rw [List.countP_cons, hd, i2]
    have := hinv.2
    simp
    omega
  · intro v hv
    exact i3 v (selStep_w_mono st t.oom_score_adj t.rss hinv v hv)
  · intro t2 ht2 he2
    rcases List.mem_cons.mp ht2 with h | h
    · rw [h]
      exact i3 _ (selStep_w_self st t.oom_score_adj t.rss hinv)
    · exact i4 t2 h he2
  · intro i hi
    rcases i5 i hi with ⟨ha, hb, hcc⟩ | ⟨t2, ht2, he2, hv1, hv2⟩
    · rcases selStep_slots st t.oom_score_adj t.rss i ha with
        ⟨hs1, hs2, hs3⟩ | ⟨hs2, hs3⟩
      · exact Or.inl ⟨hs1, by rw [hb, hs2], by rw [hcc, hs3]⟩
      · exact Or.inr ⟨t, List.mem_cons_self t ts, he,
          by rw [hb, hs2], by rw [hcc, hs3]⟩
    · exact Or.inr ⟨t2, List.mem_cons_of_mem t ht2, he2, hv1, hv2⟩

/-- Master lemma of the victim-selection scan: a completed scan satisfies all
the aggregate facts of ScanOut. -/
theorem scanTasks_master (msa : Int) (ne : Bool) (ts : List TaskStruct) :
    ∀ (st st' : LmkSel), SelInv st →
    scanTasks msa ne st ts = some st' → ScanOut msa st st' ts := by
  induction ts with
  | nil =>
    intro st st' hinv h
    simp only [scanTasks] at h
    have hst : st = st' := by injection h
    rw [← hst]
    refine ⟨hinv, ?_, fun v hv => hv, ?_, ?_⟩
    · have := hinv.2
      simp
      omega
    · intro t ht
      exact absurd ht (List.not_mem_nil t)
    · intro i hi
      exact Or.inl ⟨hi, rfl, rfl⟩
  | cons t ts ih =>
    intro st st' hinv h
    simp only [scanTasks] at h
    by_cases h1 : t.kthread = true
    · rw [if_pos h1] at h
      exact scanout_skip msa t ts st st' (by simp [eligible, h1])
        (ih st st' hinv h)
    · rw [if_neg h1] at h
      by_cases h2 : t.hasMm = false
      · rw [if_pos h2] at h
        exact scanout_skip msa t ts st st' (by simp [eligible, h2])
          (ih st st' hinv h)
      · rw [if_neg h2] at h
        by_cases h3 : t.memdie = true ∧ ne = true
        · rw [if_pos h3] at h
          exact absurd h (by simp)
        · rw [if_neg h3] at h
          by_cases h4 : t.oom_score_adj < msa
          · rw [if_pos h4] at h
            exact scanout_skip msa t ts st st'
              (by simp [eligible]; intro _ _ hc; omega)
              (ih st st' hinv h)
          · rw [if_neg h4] at h
            by_cases h5 : t.rss ≤ 0
            · rw [if_pos h5] at h
              exact scanout_skip msa t ts st st'
                (by simp [eligible]; intro _ _ _; omega)
                (ih st st' hinv h)
            · rw [if_neg h5] at h
              have he : eligible msa t := by
                refine ⟨by simpa using h1, by simpa using h2, by omega, by omega⟩
              exact scanout_step msa t ts st st' he hinv
                (ih (selStep st t.oom_score_adj t.rss) st'
                  (selStep_inv st t.oom_score_adj t.rss hinv) h)

instance abortsScanDecidable (notElapsed : Bool) (t : TaskStruct) :
    Decidable (abortsScan notElapsed t) :=
  inferInstanceAs (Decidable (_ ∧ _))

/-- The initial selection state satisfies the structural invariant. -/
theorem initSel_inv (min_score_adj : Int) : SelInv (initSel min_score_adj) := by
  constructor
  · intro i
    simp [initSel]
  · simp [initSel]

/-- A scan whose task list contains a task triggering the pending-death guard
returns the abort marker, regardless of how many candidates were already
gathered. -/
theorem scanTasks_none_of_abort (msa : Int) (ne : Bool) (ts : List TaskStruct) :
    ∀ st : LmkSel, (∃ t ∈ ts, abortsScan ne t) →
    scanTasks msa ne st ts = none := by
  induction ts with
  | nil =>
    intro st h
    obtain ⟨t, ht, -⟩ := h
    exact absurd ht (List.not_mem_nil t)
  | cons t ts ih =>
    intro st h
    obtain ⟨t2, ht2, hab⟩ := h
    rcases List.mem_cons.mp ht2 with h2 | h2
    · rw [h2] at hab
      obtain ⟨a1, a2, a3, a4⟩ := hab
      simp only [scanTasks]
      simp [a1, a2, a3, a4]
    · simp only [scanTasks]
      split_ifs
      · exact ih st ⟨t2, h2, hab⟩
      · exact ih st ⟨t2, h2, hab⟩
      · rfl
      · exact ih st ⟨t2, h2, hab⟩
      · exact ih st ⟨t2, h2, hab⟩
      · exact ih _ ⟨t2, h2, hab⟩

/-- A scan over a task list with no guard-triggering task completes with some
final state. -/
theorem scanTasks_some_of_no_abort (msa : Int) (ne : Bool) (ts : List TaskStruct) :
    ∀ st : LmkSel, (∀ t ∈ ts, ¬ abortsScan ne t) →
    ∃ st2, scanTasks msa ne st ts = some st2 := by
  induction ts with
  | nil =>
    intro st _
    exact ⟨st, by simp only [scanTasks]⟩
  | cons t ts ih =>
    intro st h
    have hts : ∀ t2 ∈ ts, ¬ abortsScan ne t2 :=
      fun t2 h2 => h t2 (List.mem_cons_of_mem t h2)
    simp only [scanTasks]
    split_ifs with c1 c2 c3 c4 c5
    · exact ih st hts
    · exact ih st hts
    · exact absurd (show abortsScan ne t from
        ⟨by simpa using c1, by simpa using c2, c3.1, c3.2⟩)
        (h t (List.mem_cons_self t ts))
    · exact ih st hts
    · exact ih st hts
    · exact ih _ hts

/-- Membership in the kill list: exactly the filled slots' pairs. -/
theorem mem_poolList (st : LmkSel) (c : Int × Int) :
    c ∈ poolList st ↔ ∃ i : Fin 3, st.selected i = true ∧
      c = (st.selected_oom_score_adj i, st.selected_tasksize i) := by
  unfold poolList
  constructor
  · intro h
    rcases List.mem_append.mp h with h | h
    · rcases List.mem_append.mp h with h | h
      · by_cases hs : st.selected 0 = true
        · rw [if_pos hs] at h
          simp at h
          exact ⟨0, hs, h⟩
        · rw [if_neg hs] at h
          exact absurd h (List.not_mem_nil c)
      · by_cases hs : st.selected 1 = true
        · rw [if_pos hs] at h
          simp at h
          exact ⟨1, hs, h⟩
        · rw [if_neg hs] at h
          exact absurd h (List.not_mem_nil c)
    · by_cases hs : st.selected 2 = true
      · rw [if_pos hs] at h
        simp at h
        exact ⟨2, hs, h⟩
      · rw [if_neg hs] at h
        exact absurd h (List.not_mem_nil c)
  · rintro ⟨i, hi, rfl⟩
    rcases i with ⟨iv, hlt⟩
    interval_cases iv
    · have hi0 : st.selected 0 = true := hi
      show (st.selected_oom_score_adj 0, st.selected_tasksize 0) ∈ _
      simp [hi0]
    · have hi1 : st.selected 1 = true := hi
      show (st.selected_oom_score_adj 1, st.selected_tasksize 1) ∈ _
      simp [hi1]
    · have hi2 : st.selected 2 = true := hi
      show (st.selected_oom_score_adj 2, st.selected_tasksize 2) ∈ _
      simp [hi2]

/-- Length of the kill list under the structural invariant: the candidate
count. -/
theorem poolList_length (st : LmkSel) (hinv : SelInv st) :
    (poolList st).length = st.all_selected_oom := by
  obtain ⟨h1, h2⟩ := hinv
  have e0 := h1 0
  have e1 := h1 1
  have e2 := h1 2
  clear h1
  rw [fin3_val_zero] at e0
  rw [fin3_val_one] at e1
  rw [fin3_val_two] at e2
  unfold poolList
  interval_cases hv : st.all_selected_oom
  all_goals simp_all

/-- Tier-breach condition at the Prop level: the default build requires both
samples below the minfree entry, the alternate build only the file sample. -/
def tierBreached (mvp : Bool) (lowmem_minfree : Nat → Int)
    (other_free other_file : Int) (i : Nat) : Prop :=
  match mvp with
  | true => other_file < lowmem_minfree i
  | false => other_free < lowmem_minfree i ∧ other_file < lowmem_minfree i

instance tierBreachedDecidable (mvp : Bool) (lowmem_minfree : Nat → Int)
    (other_free other_file : Int) (i : Nat) :
    Decidable (tierBreached mvp lowmem_minfree other_free other_file i) := by
  cases mvp
  · exact inferInstanceAs (Decidable (_ ∧ _))
  · exact inferInstanceAs (Decidable (_ < _))

/-- The boolean tier predicate holds exactly when the tier is breached. -/
theorem tierPred_eq_true_iff (mvp : Bool) (lowmem_minfree : Nat → Int)
    (other_free other_file : Int) (i : Nat) :
    tierPred mvp lowmem_minfree other_free other_file i = true ↔
      tierBreached mvp lowmem_minfree other_free other_file i := by
  cases mvp <;> simp [tierPred, tierBreached]

/-- The boolean tier predicate is false exactly when the tier is not
breached. -/
theorem tierPred_eq_false_iff (mvp : Bool) (lowmem_minfree : Nat → Int)
    (other_free other_file : Int) (i : Nat) :
    tierPred mvp lowmem_minfree other_free other_file i = false ↔
      ¬ tierBreached mvp lowmem_minfree other_free other_file i := by
  cases mvp <;> simp [tierPred, tierBreached]

/-- Value of min_score_adj when a tier is selected. -/
theorem minScoreAdj_some (mvp : Bool) (lowmem_adj lowmem_minfree : Nat → Int)
    (n : Nat) (other_free other_file : Int) (i : Nat)
    (h : tierIndex mvp lowmem_minfree n other_free other_file = some i) :
    minScoreAdj mvp lowmem_adj lowmem_minfree n other_free other_file =
      lowmem_adj i := by
  unfold minScoreAdj
  rw [h]

/-- Value of min_score_adj when no tier is selected. -/
theorem minScoreAdj_none (mvp : Bool) (lowmem_adj lowmem_minfree : Nat → Int)
    (n : Nat) (other_free other_file : Int)
    (h : tierIndex mvp lowmem_minfree n other_free other_file = none) :
    minScoreAdj mvp lowmem_adj lowmem_minfree n other_free other_file =
      OOM_SCORE_ADJ_MAX + 1 := by
  unfold minScoreAdj
  rw [h]

/-- Shape of lowmem_shrink on the count-only / no-breach early return. -/
theorem lowmem_shrink_return_rem (mvp : Bool)
    (lowmem_adj lowmem_minfree : Nat → Int)
    (lowmem_adj_size lowmem_minfree_size : Nat) (sc : ShrinkInput)
    (h : sc.nr_to_scan = 0 ∨
      minScoreAdj mvp lowmem_adj lowmem_minfree
        (effArraySize lowmem_adj_size lowmem_minfree_size)
        sc.other_free sc.other_file = OOM_SCORE_ADJ_MAX + 1) :
    lowmem_shrink mvp lowmem_adj lowmem_minfree lowmem_adj_size
      lowmem_minfree_size sc =
    { ret := sc.active_anon + sc.active_file + sc.inactive_anon + sc.inactive_file
      killed := [] } := by
  simp only [lowmem_shrink]
  rw [if_pos h]

/-- Shape of lowmem_shrink when the pass scans and completes with final
selection state st. -/
theorem lowmem_shrink_scan_some (mvp : Bool)
    (lowmem_adj lowmem_minfree : Nat → Int)
    (lowmem_adj_size lowmem_minfree_size : Nat) (sc : ShrinkInput) (st : LmkSel)
    (hbudget : sc.nr_to_scan ≠ 0)
    (hbreach : minScoreAdj mvp lowmem_adj lowmem_minfree
      (effArraySize lowmem_adj_size lowmem_minfree_size)
      sc.other_free sc.other_file ≠ OOM_SCORE_ADJ_MAX + 1)
    (hst : scanTasks
      (minScoreAdj mvp lowmem_adj lowmem_minfree
        (effArraySize lowmem_adj_size lowmem_minfree_size)
        sc.other_free sc.other_file)
      sc.deathpending_not_elapsed
      (initSel (minScoreAdj mvp lowmem_adj lowmem_minfree
        (effArraySize lowmem_adj_size lowmem_minfree_size)
        sc.other_free sc.other_file))
      sc.tasks = some st) :
    lowmem_shrink mvp lowmem_adj lowmem_minfree lowmem_adj_size
      lowmem_minfree_size sc =
    { ret := sc.active_anon + sc.active_file + sc.inactive_anon +
        sc.inactive_file - (List.map Prod.snd (poolList st)).sum
      killed := poolList st } := by
  simp only [lowmem_shrink]
  rw [if_neg (by push_neg; exact ⟨hbudget, hbreach⟩), hst]

/-- Shape of lowmem_shrink when the pass scans and the pending-death guard
aborts the scan. -/
theorem lowmem_shrink_scan_none (mvp : Bool)
    (lowmem_adj lowmem_minfree : Nat → Int)
    (lowmem_adj_size lowmem_minfree_size : Nat) (sc : ShrinkInput)
    (hbudget : sc.nr_to_scan ≠ 0)
    (hbreach : minScoreAdj mvp lowmem_adj lowmem_minfree
      (effArraySize lowmem_adj_size lowmem_minfree_size)
      sc.other_free sc.other_file ≠ OOM_SCORE_ADJ_MAX + 1)
    (hst : scanTasks
      (minScoreAdj mvp lowmem_adj lowmem_minfree
        (effArraySize lowmem_adj_size lowmem_minfree_size)
        sc.other_free sc.other_file)
      sc.deathpending_not_elapsed
      (initSel (minScoreAdj mvp lowmem_adj lowmem_minfree
        (effArraySize lowmem_adj_size lowmem_minfree_size)
        sc.other_free sc.other_file))
      sc.tasks = none) :
    lowmem_shrink mvp lowmem_adj lowmem_minfree lowmem_adj_size
      lowmem_minfree_size sc = { ret := 0, killed := [] } := by
  simp only [lowmem_shrink]
  rw [if_neg (by push_neg; exact ⟨hbudget, hbreach⟩), hst]

/-- Claim C2: at completion of a victim-selection pass, every candidate-pool
entry stems from an eligible task, and no eligible task of the scanned
catalog — in particular no excluded eligible one — strictly dominates every
pool entry under the (score, then size) order: some pool entry is not
dominated by it. -/
theorem claim_C2 (min_score_adj : Int) (notElapsed : Bool)
    (tasks : List TaskStruct) (st : LmkSel)
    (h : scanTasks min_score_adj notElapsed (initSel min_score_adj) tasks =
      some st) :
    (∀ c ∈ poolList st, ∃ t ∈ tasks, eligible min_score_adj t ∧
      c = (t.oom_score_adj, t.rss)) ∧
    (∀ t ∈ tasks, eligible min_score_adj t →
      ∃ c ∈ poolList st, ¬ strictDom (t.oom_score_adj, t.rss) c) := by
  obtain ⟨i1, i2, i3, i4, i5⟩ :=
    scanTasks_master min_score_adj notElapsed tasks (initSel min_score_adj) st
      (initSel_inv min_score_adj) h
  constructor
  · intro c hc
    obtain ⟨i, hi, hci⟩ := (mem_poolList st c).mp hc
    rcases i5 i hi with ⟨ha, -, -⟩ | ⟨t, ht, he, hv1, hv2⟩
    · simp [initSel] at ha
    · exact ⟨t, ht, he, by rw [hci, hv1, hv2]⟩
  · intro t ht he
    obtain ⟨i, hi, hle⟩ := i4 t ht he
    refine ⟨(st.selected_oom_score_adj i, st.selected_tasksize i), ?_, ?_⟩
    · exact (mem_poolList st _).mpr ⟨i, hi, rfl⟩
    · exact not_strictDom_of_lexLe hle

/-- Witness for claim C2 at a concrete one-task scan. -/
theorem claim_C2_witness :
    scanTasks 0 false (initSel 0) [⟨false, true, false, 5, 10⟩] =
      some (selStep (initSel 0) 5 10) ∧
    ((∀ c ∈ poolList (selStep (initSel 0) 5 10),
        ∃ t ∈ [(⟨false, true, false, 5, 10⟩ : TaskStruct)],
          eligible 0 t ∧ c = (t.oom_score_adj, t.rss)) ∧
     (∀ t ∈ [(⟨false, true, false, 5, 10⟩ : TaskStruct)], eligible 0 t →
        ∃ c ∈ poolList (selStep (initSel 0) 5 10),
          ¬ strictDom (t.oom_score_adj, t.rss) c)) :=
  ⟨rfl, claim_C2 0 false [⟨false, true, false, 5, 10⟩]
    (selStep (initSel 0) 5 10) rfl⟩

/-- Claim C3: with a positive scan budget, a breached tier, and no
pending-death guard firing, the pass kills at most 3 victims and at least
min(3, eligibleCount). -/
theorem claim_C3 (mvp : Bool) (lowmem_adj lowmem_minfree : Nat → Int)
    (lowmem_adj_size lowmem_minfree_size : Nat) (sc : ShrinkInput)
    (hbudget : sc.nr_to_scan ≠ 0)
    (hbreach : minScoreAdj mvp lowmem_adj lowmem_minfree
      (effArraySize lowmem_adj_size lowmem_minfree_size)
      sc.other_free sc.other_file ≠ OOM_SCORE_ADJ_MAX + 1)
    (hguard : ∀ t ∈ sc.tasks, ¬ abortsScan sc.deathpending_not_elapsed t) :
    (lowmem_shrink mvp lowmem_adj lowmem_minfree lowmem_adj_size
      lowmem_minfree_size sc).killed.length ≤ 3 ∧
    min 3 (sc.tasks.countP (fun t => decide (eligible
      (minScoreAdj mvp lowmem_adj lowmem_minfree
        (effArraySize lowmem_adj_size lowmem_minfree_size)
        sc.other_free sc.other_file) t))) ≤
      (lowmem_shrink mvp lowmem_adj lowmem_minfree lowmem_adj_size
        lowmem_minfree_size sc).killed.length := by
  obtain ⟨st, hst⟩ := scanTasks_some_of_no_abort
    (minScoreAdj mvp lowmem_adj lowmem_minfree
      (effArraySize lowmem_adj_size lowmem_minfree_size)
      sc.other_free sc.other_file)
    sc.deathpending_not_elapsed sc.tasks (initSel _) hguard
  rw [lowmem_shrink_scan_some mvp lowmem_adj lowmem_minfree lowmem_adj_size
    lowmem_minfree_size sc st hbudget hbreach hst]
  obtain ⟨i1, i2, -, -, -⟩ :=
    scanTasks_master _ _ sc.tasks _ st (initSel_inv _) hst
  dsimp only
  rw [poolList_length st i1]
  have h0 : (initSel (minScoreAdj mvp lowmem_adj lowmem_minfree
    (effArraySize lowmem_adj_size lowmem_minfree_size)
    sc.other_free sc.other_file)).all_selected_oom = 0 := rfl
  rw [h0] at i2
  omega

/-- Witness for claim C3 at a concrete single eligible task. -/
theorem claim_C3_witness :
    ((1 : Nat) ≠ 0 ∧
     minScoreAdj false (fun _ => 0) (fun _ => 100) (effArraySize 6 6) 10 10 ≠
       OOM_SCORE_ADJ_MAX + 1 ∧
     (∀ t ∈ [(⟨false, true, false, 5, 10⟩ : TaskStruct)],
        ¬ abortsScan false t)) ∧
    ((lowmem_shrink false (fun _ => 0) (fun _ => 100) 6 6
        ⟨1, 10, 10, 0, 0, 0, 0, false, [⟨false, true, false, 5, 10⟩]⟩).killed.length ≤ 3 ∧
     min 3 (List.countP (fun t => decide (eligible
        (minScoreAdj false (fun _ => 0) (fun _ => 100) (effArraySize 6 6) 10 10) t))
        [(⟨false, true, false, 5, 10⟩ : TaskStruct)]) ≤
      (lowmem_shrink false (fun _ => 0) (fun _ => 100) 6 6
        ⟨1, 10, 10, 0, 0, 0, 0, false, [⟨false, true, false, 5, 10⟩]⟩).killed.length) :=
  ⟨⟨by decide, by decide, by decide⟩,
   claim_C3 false (fun _ => 0) (fun _ => 100) 6 6
     ⟨1, 10, 10, 0, 0, 0, 0, false, [⟨false, true, false, 5, 10⟩]⟩
     (by decide) (by decide) (by decide)⟩

/-- Claim C4: with pool capacity 3 and eligible candidates arriving in scan
order with (score, size) pairs (5,10), (5,50), (8,10), (8,20), (9,5), the
final candidate pool is exactly the set containing (9,5), (8,20) and
(8,10). -/
theorem claim_C4 :
    Option.map (fun st => poolList st)
      (scanTasks 0 false (initSel 0)
        [⟨false, true, false, 5, 10⟩, ⟨false, true, false, 5, 50⟩,
         ⟨false, true, false, 8, 10⟩, ⟨false, true, false, 8, 20⟩,
         ⟨false, true, false, 9, 5⟩]) =
      some [(8, 20), (9, 5), (8, 10)] ∧
    ([((8 : Int), (20 : Int)), (9, 5), (8, 10)] : List (Int × Int)).toFinset =
      ({((9 : Int), (5 : Int)), (8, 20), (8, 10)} : Finset (Int × Int)) := by
  constructor
  · decide
  · ext c
    simp
    tauto

/-- Claim C5: if the pass scans (positive budget, breached tier) and some
scanned task carries an unexpired pending-death marker, the whole pass
returns zero with no kills. -/
theorem claim_C5 (mvp : Bool) (lowmem_adj lowmem_minfree : Nat → Int)
    (lowmem_adj_size lowmem_minfree_size : Nat) (sc : ShrinkInput)
    (hbudget : sc.nr_to_scan ≠ 0)
    (hbreach : minScoreAdj mvp lowmem_adj lowmem_minfree
      (effArraySize lowmem_adj_size lowmem_minfree_size)
      sc.other_free sc.other_file ≠ OOM_SCORE_ADJ_MAX + 1)
    (hguard : ∃ t ∈ sc.tasks, abortsScan sc.deathpending_not_elapsed t) :
    lowmem_shrink mvp lowmem_adj lowmem_minfree lowmem_adj_size
      lowmem_minfree_size sc = { ret := 0, killed := [] } :=
  lowmem_shrink_scan_none mvp lowmem_adj lowmem_minfree lowmem_adj_size
    lowmem_minfree_size sc hbudget hbreach
    (scanTasks_none_of_abort _ sc.deathpending_not_elapsed sc.tasks _ hguard)

/-- Witness for claim C5 at a concrete task with an unexpired pending-death
marker, preceded by an already-gathered candidate. -/
theorem claim_C5_witness :
    ((1 : Nat) ≠ 0 ∧
     minScoreAdj false (fun _ => 0) (fun _ => 100) (effArraySize 6 6) 10 10 ≠
       OOM_SCORE_ADJ_MAX + 1 ∧
     (∃ t ∈ [(⟨false, true, false, 5, 10⟩ : TaskStruct),
             ⟨false, true, true, 5, 10⟩], abortsScan true t)) ∧
    lowmem_shrink false (fun _ => 0) (fun _ => 100) 6 6
      ⟨1, 10, 10, 0, 0, 0, 0, true,
       [⟨false, true, false, 5, 10⟩, ⟨false, true, true, 5, 10⟩]⟩ =
      { ret := 0, killed := [] } :=
  ⟨⟨by decide, by decide, by decide⟩,
   claim_C5 false (fun _ => 0) (fun _ => 100) 6 6
     ⟨1, 10, 10, 0, 0, 0, 0, true,
      [⟨false, true, false, 5, 10⟩, ⟨false, true, true, 5, 10⟩]⟩
     (by decide) (by decide) (by decide)⟩

/-- Claim C6: one transition to non-interactive followed by one transition
back to interactive restores the active minfree array bit-for-bit, and the
cutoff-score array is unchanged by both transitions. -/
theorem claim_C6 (s : ProfileState) :
    (low_mem_late_resume (low_mem_early_suspend s)).lowmem_minfree =
      s.lowmem_minfree ∧
    (low_mem_early_suspend s).lowmem_adj = s.lowmem_adj ∧
    (low_mem_late_resume (low_mem_early_suspend s)).lowmem_adj =
      s.lowmem_adj :=
  ⟨rfl, rfl, rfl⟩

/-- Claim C7: two consecutive transitions to non-interactive overwrite the
interactive backup with the non-interactive values, so the following
transition back to interactive loads the non-interactive array instead of
the original one. -/
theorem claim_C7 (s : ProfileState) :
    (low_mem_late_resume (low_mem_early_suspend
      (low_mem_early_suspend s))).lowmem_minfree =
      s.lowmem_minfree_screen_off ∧
    (low_mem_early_suspend (low_mem_early_suspend s)).lowmem_minfree_screen_on =
      s.lowmem_minfree_screen_off :=
  ⟨rfl, rfl⟩

/-- Claim C8: with a zero scan budget or no breached tier, the pass returns
the informational reclaimable-page estimate — the sum of active anonymous,
active file, inactive anonymous and inactive file pages — and kills
nothing. -/
theorem claim_C8 (mvp : Bool) (lowmem_adj lowmem_minfree : Nat → Int)
    (lowmem_adj_size lowmem_minfree_size : Nat) (sc : ShrinkInput)
    (h : sc.nr_to_scan = 0 ∨
      tierIndex mvp lowmem_minfree
        (effArraySize lowmem_adj_size lowmem_minfree_size)
        sc.other_free sc.other_file = none) :
    lowmem_shrink mvp lowmem_adj lowmem_minfree lowmem_adj_size
      lowmem_minfree_size sc =
    { ret := sc.active_anon + sc.active_file + sc.inactive_anon +
        sc.inactive_file
      killed := [] } := by
  apply lowmem_shrink_return_rem
  rcases h with h | h
  · exact Or.inl h
  · exact Or.inr (minScoreAdj_none mvp lowmem_adj lowmem_minfree _ _ _ h)

/-- Witness for claim C8 at a concrete count-only query. -/
theorem claim_C8_witness :
    ((0 : Nat) = 0 ∨
      tierIndex false (fun _ => 100) (effArraySize 6 6) 10 10 = none) ∧
    lowmem_shrink false (fun _ => 0) (fun _ => 100) 6 6
      ⟨0, 10, 10, 1, 2, 3, 4, false, []⟩ =
      { ret := (1 : Int) + 2 + 3 + 4, killed := [] } :=
  ⟨Or.inl rfl,
   claim_C8 false (fun _ => 0) (fun _ => 100) 6 6
     ⟨0, 10, 10, 1, 2, 3, 4, false, []⟩ (Or.inl rfl)⟩

/-- Claim C1 counterexample: with minfree table [2000] of effective length 1
and sample F = 1000, C = 5000 in the default mode, the predicate stated by
the claim (F below the entry, C tested additionally only in the alternate
mode) selects tier 0, while the code requires both F and C below the entry
and selects no tier at all. -/
theorem claim_C1_counterexample :
    tierIndexClaimC1 false (fun _ => 2000) 1 1000 5000 = some 0 ∧
    tierIndex false (fun _ => 2000) 1 1000 5000 = none := by
  constructor
  · decide
  · decide

/-- Claim C1 (amended): for every ascending minfree table of effective
length n, the evaluator selects the smallest index whose tier is breached —
in the default mode both the free and the file sample must be below the
entry, in the alternate mode only the file sample — that tier's adj entry
becomes the active cutoff, and when no index is breached the sentinel
signals no action. -/
theorem claim_C1_amended (mvp : Bool) (lowmem_adj lowmem_minfree : Nat → Int)
    (n : Nat) (other_free other_file : Int)
    (hasc : ∀ j, j < n → ∀ i, i ≤ j → lowmem_minfree i ≤ lowmem_minfree j) :
    (∀ i, tierIndex mvp lowmem_minfree n other_free other_file = some i ↔
      (i < n ∧ tierBreached mvp lowmem_minfree other_free other_file i ∧
       ∀ j, j < i → ¬ tierBreached mvp lowmem_minfree other_free other_file j)) ∧
    (tierIndex mvp lowmem_minfree n other_free other_file = none ↔
      ∀ i, i < n → ¬ tierBreached mvp lowmem_minfree other_free other_file i) ∧
    (∀ i, tierIndex mvp lowmem_minfree n other_free other_file = some i →
      minScoreAdj mvp lowmem_adj lowmem_minfree n other_free other_file =
        lowmem_adj i) := by
  refine ⟨?_, ?_, ?_⟩
  · intro i
    unfold tierIndex
    rw [firstBreach_some_iff]
    constructor
    · rintro ⟨h1, h2, h3⟩
      exact ⟨h1, (tierPred_eq_true_iff mvp lowmem_minfree other_free other_file i).mp h2,
        fun j hj => (tierPred_eq_false_iff mvp lowmem_minfree other_free other_file j).mp
          (h3 j hj)⟩
    · rintro ⟨h1, h2, h3⟩
      exact ⟨h1, (tierPred_eq_true_iff mvp lowmem_minfree other_free other_file i).mpr h2,
        fun j hj => (tierPred_eq_false_iff mvp lowmem_minfree other_free other_file j).mpr
          (h3 j hj)⟩
  · unfold tierIndex
    rw [firstBreach_none_iff]
    constructor
    · intro h i hi
      exact (tierPred_eq_false_iff mvp lowmem_minfree other_free other_file i).mp (h i hi)
    · intro h i hi
      exact (tierPred_eq_false_iff mvp lowmem_minfree other_free other_file i).mpr (h i hi)
  · intro i h
    exact minScoreAdj_some mvp lowmem_adj lowmem_minfree n other_free other_file i h

/-- Witness for the amended claim C1 at the spec scenario: cutoffs [0, 8],
minfree [1024, 4096], F = C = 3000 select tier 1 with cutoff score 8. -/
theorem claim_C1_witness :
    (∀ j, j < 2 → ∀ i, i ≤ j →
      (fun k => if k = 0 then (1024 : Int) else 4096) i ≤
      (fun k => if k = 0 then (1024 : Int) else 4096) j) ∧
    minScoreAdj false (fun k => if k = 0 then (0 : Int) else 8)
      (fun k => if k = 0 then (1024 : Int) else 4096) 2 3000 3000 = 8 := by
  refine ⟨by decide, ?_⟩
  have h := claim_C1_amended false (fun k => if k = 0 then (0 : Int) else 8)
    (fun k => if k = 0 then (1024 : Int) else 4096) 2 3000 3000 (by decide)
  exact h.2.2 1 ((h.1 1).mpr (by decide))

/-- Claim C9: the result of a pass depends on the configuration arrays only
through their entries below the effective length (the minimum of the two
configured lengths and 6); two configurations agreeing there are
indistinguishable. -/
theorem claim_C9 (mvp : Bool) (adjA adjB mfA mfB : Nat → Int)
    (lowmem_adj_size lowmem_minfree_size : Nat) (sc : ShrinkInput)
    (h : ∀ i, i < effArraySize lowmem_adj_size lowmem_minfree_size →
      adjA i = adjB i ∧ mfA i = mfB i) :
    lowmem_shrink mvp adjA mfA lowmem_adj_size lowmem_minfree_size sc =
    lowmem_shrink mvp adjB mfB lowmem_adj_size lowmem_minfree_size sc := by
  have hti : tierIndex mvp mfA (effArraySize lowmem_adj_size lowmem_minfree_size)
      sc.other_free sc.other_file =
      tierIndex mvp mfB (effArraySize lowmem_adj_size lowmem_minfree_size)
      sc.other_free sc.other_file := by
    unfold tierIndex
    apply firstBreach_congr
    intro i hi
    unfold tierPred
    rw [(h i hi).2]
  have hmsa : minScoreAdj mvp adjA mfA
      (effArraySize lowmem_adj_size lowmem_minfree_size)
      sc.other_free sc.other_file =
      minScoreAdj mvp adjB mfB
      (effArraySize lowmem_adj_size lowmem_minfree_size)
      sc.other_free sc.other_file := by
    cases hc : tierIndex mvp mfA (effArraySize lowmem_adj_size lowmem_minfree_size)
        sc.other_free sc.other_file with
    | some i =>
      have hc2 : tierIndex mvp mfB
          (effArraySize lowmem_adj_size lowmem_minfree_size)
          sc.other_free sc.other_file = some i := by
        rw [← hti]
        exact hc
      have hc3 : firstBreach (tierPred mvp mfA sc.other_free sc.other_file)
          (effArraySize lowmem_adj_size lowmem_minfree_size) = some i := hc
      have hlt : i < effArraySize lowmem_adj_size lowmem_minfree_size :=
        ((firstBreach_some_iff _ _ _).mp hc3).1
      rw [minScoreAdj_some mvp adjA mfA _ _ _ i hc,
        minScoreAdj_some mvp adjB mfB _ _ _ i hc2]
      exact (h i hlt).1
    | none =>
      have hc2 : tierIndex mvp mfB
          (effArraySize lowmem_adj_size lowmem_minfree_size)
          sc.other_free sc.other_file = none := by
        rw [← hti]
        exact hc
      rw [minScoreAdj_none mvp adjA mfA _ _ _ hc,
        minScoreAdj_none mvp adjB mfB _ _ _ hc2]
  simp only [lowmem_shrink]
  rw [hmsa]

/-- Witness for claim C9 with configured lengths 4 and 6: arrays differing
only from index 4 on produce identical results. -/
theorem claim_C9_witness :
    (∀ i, i < effArraySize 4 6 →
      ((fun _ => (0 : Int)) i = (fun j => if j < 4 then (0 : Int) else 7) i ∧
       (fun _ => (100 : Int)) i = (fun j => if j < 4 then (100 : Int) else 9) i)) ∧
    lowmem_shrink false (fun _ => 0) (fun _ => 100) 4 6
      ⟨1, 10, 10, 1, 2, 3, 4, false, []⟩ =
    lowmem_shrink false (fun j => if j < 4 then 0 else 7)
      (fun j => if j < 4 then 100 else 9) 4 6
      ⟨1, 10, 10, 1, 2, 3, 4, false, []⟩ :=
  ⟨by decide,
   claim_C9 false (fun _ => 0) (fun j => if j < 4 then 0 else 7)
     (fun _ => 100) (fun j => if j < 4 then 100 else 9) 4 6
     ⟨1, 10, 10, 1, 2, 3, 4, false, []⟩ (by decide)⟩

/-- Condition under which the one-time legacy rescale fires, transcribed from
the early-return chain at lines 644-656: a nonempty effective table whose
last entry is at most the legacy maximum while its converted value exceeds
the legacy maximum. -/
def rescaleApplies (lowmem_adj : Nat → Int) (lowmem_adj_size : Nat) : Prop :=
  0 < (if lowmem_adj_size < 6 then lowmem_adj_size else 6) ∧
  lowmem_adj ((if lowmem_adj_size < 6 then lowmem_adj_size else 6) - 1) ≤
    OOM_ADJUST_MAX ∧
  OOM_ADJUST_MAX < toShort (lowmem_oom_adj_to_oom_score_adj
    (lowmem_adj ((if lowmem_adj_size < 6 then lowmem_adj_size else 6) - 1)))

instance rescaleAppliesDecidable (lowmem_adj : Nat → Int) (lowmem_adj_size : Nat) :
    Decidable (rescaleApplies lowmem_adj lowmem_adj_size) :=
  inferInstanceAs (Decidable (_ ∧ _))

/-- Claim C10 counterexample: the table [1] has its last entry below the
legacy maximum 15, yet the rescale fires and maps the entry to
1 * 1000 / 17 = 58, contradicting the claimed
"applied only if the last entry sits at the legacy maximum". -/
theorem claim_C10_counterexample :
    lowmem_autodetect_oom_adj_values (fun _ => 1) 1 0 = 58 ∧
    (1 : Int) ≠ OOM_ADJUST_MAX ∧ (58 : Int) ≠ 1 := by
  refine ⟨by decide, by decide, by decide⟩

/-- Claim C10 (amended): the conversion maps the legacy maximum exactly to
OOM_SCORE_ADJ_MAX and every other entry to old * OOM_SCORE_ADJ_MAX /
-OOM_DISABLE with C division; the rescale rewrites every entry below the
effective length by this conversion iff the table is nonempty, its last
entry is at most the legacy maximum, and that entry's converted value
exceeds the legacy maximum; otherwise the table is unchanged. -/
theorem claim_C10_amended (lowmem_adj : Nat → Int) (lowmem_adj_size : Nat) :
    lowmem_oom_adj_to_oom_score_adj OOM_ADJUST_MAX = OOM_SCORE_ADJ_MAX ∧
    (∀ x, x ≠ OOM_ADJUST_MAX → lowmem_oom_adj_to_oom_score_adj x =
      Int.tdiv (x * OOM_SCORE_ADJ_MAX) (-OOM_DISABLE)) ∧
    (rescaleApplies lowmem_adj lowmem_adj_size →
      ∀ i, lowmem_autodetect_oom_adj_values lowmem_adj lowmem_adj_size i =
        if i < (if lowmem_adj_size < 6 then lowmem_adj_size else 6) then
          toShort (lowmem_oom_adj_to_oom_score_adj (lowmem_adj i))
        else lowmem_adj i) ∧
    (¬ rescaleApplies lowmem_adj lowmem_adj_size →
      lowmem_autodetect_oom_adj_values lowmem_adj lowmem_adj_size =
        lowmem_adj) := by
  refine ⟨?_, ?_, ?_, ?_⟩
  · unfold lowmem_oom_adj_to_oom_score_adj
    rw [if_pos rfl]
  · intro x hx
    unfold lowmem_oom_adj_to_oom_score_adj
    rw [if_neg hx]
  · intro hap i
    obtain ⟨h1, h2, h3⟩ := hap
    simp only [lowmem_autodetect_oom_adj_values]
    have hz : ¬((if lowmem_adj_size < 6 then lowmem_adj_size else 6) = 0) := by
      omega
    have hb : ¬(OOM_ADJUST_MAX <
        lowmem_adj ((if lowmem_adj_size < 6 then lowmem_adj_size else 6) - 1)) := by
      omega
    have hs : ¬(toShort (lowmem_oom_adj_to_oom_score_adj
        (lowmem_adj ((if lowmem_adj_size < 6 then lowmem_adj_size else 6) - 1))) ≤
        OOM_ADJUST_MAX) := by
      omega
    rw [if_neg hz, if_neg hb, if_neg hs]
  · intro hna
    simp only [lowmem_autodetect_oom_adj_values]
    by_cases hz : (if lowmem_adj_size < 6 then lowmem_adj_size else 6) = 0
    · rw [if_pos hz]
    · rw [if_neg hz]
      by_cases hb : OOM_ADJUST_MAX <
          lowmem_adj ((if lowmem_adj_size < 6 then lowmem_adj_size else 6) - 1)
      · rw [if_pos hb]
      · rw [if_neg hb]
        have hs : toShort (lowmem_oom_adj_to_oom_score_adj
            (lowmem_adj ((if lowmem_adj_size < 6 then lowmem_adj_size else 6) - 1))) ≤
            OOM_ADJUST_MAX := by
          unfold rescaleApplies at hna
          push_neg at hna
          exact hna (by omega) (by omega)
        rw [if_pos hs]

/-- Witness for the amended claim C10: the table [15] is rescaled and its
entry maps exactly to 1000. -/
theorem claim_C10_witness :
    rescaleApplies (fun _ => 15) 1 ∧
    lowmem_autodetect_oom_adj_values (fun _ => 15) 1 0 = 1000 := by
  refine ⟨by decide, ?_⟩
  have h := (claim_C10_amended (fun _ => 15) 1).2.2.1 (by decide) 0
  rw [h]
  decide
